import Mathlib

/-!
Verification development for the per-index update pipeline of
`src/meilidb-data/src/database/index/mod.rs`.

The embedding models:
* u64 big-endian keys (`u64_to_be_bytes`) and sled's lexicographic byte order
  (`bytesLt`), with the proof that on 8-byte keys the byte order coincides
  with numeric order — this justifies keying the tree model below by `Nat`;
* sled trees as strictly key-sorted association lists (`SledTree`) with the
  operations the source uses: `get`/`lookup`, `insert`, `remove`/`erase`,
  `iter().next()` as `List.head?`;
* the update codec (`Update.serialize` for `rmp_serde::to_vec_named`,
  `decodeUpdateOwned` for `rmp_serde::from_read_ref`) at the MessagePack
  value level, the byte layer being the external `rmp` crates;
* the update worker's per-update transaction (`update_system_step`) and drain
  loop (`update_system_drain`) from `spawn_update_system`;
* `Index::new_raw`'s schema resolution, `raw_push_update`,
  `update_status`/`update_status_blocking`, `document`, and the
  `RefIndex`/`Store` read adapter.
-/

set_option autoImplicit false

namespace MeiliDb

/-! ## Big-endian u64 keys and sled's byte ordering -/

/-- Big-endian base-256 digits of `n`, `w` bytes wide, most significant first
(models Rust's `u64::to_be_bytes` for `w = 8`). -/
def beBytes : Nat → Nat → List Nat
  | 0, _ => []
  | w + 1, n => (n / 256 ^ w) % 256 :: beBytes w (n % 256 ^ w)

/-- The 8-byte big-endian key used for the Updates and Updates-Results trees
(`update_id.to_be_bytes()`). -/
def u64_to_be_bytes (n : Nat) : List Nat :=
  beBytes 8 n

/-- Lexicographic strict order on byte strings: the order in which sled stores
and iterates keys. -/
def bytesLt : List Nat → List Nat → Bool
  | _, [] => false
  | [], _ :: _ => true
  | a :: as, b :: bs =>
    if a < b then true
    else if b < a then false
    else bytesLt as bs

theorem nat_lt_iff_div_lt_or_mod_lt (M a b : Nat) (hM : 0 < M) :
    a < b ↔ a / M < b / M ∨ (a / M = b / M ∧ a % M < b % M) := by
  constructor
  · intro h
    rcases Nat.lt_or_ge (a / M) (b / M) with h1 | h1
    · exact Or.inl h1
    · have h4 : a / M = b / M :=
        Nat.le_antisymm (Nat.div_le_div_right (Nat.le_of_lt h)) h1
      refine Or.inr ⟨h4, ?_⟩
      have ht : M * (a / M) + a % M < M * (a / M) + b % M := by
        rw [Nat.div_add_mod a M, h4, Nat.div_add_mod b M]
        exact h
      exact Nat.lt_of_add_lt_add_left ht
  · intro h
    rcases h with h1 | ⟨heq, hmod⟩
    · by_contra hab
      have hba : b ≤ a := Nat.le_of_not_lt hab
      have : b / M ≤ a / M := Nat.div_le_div_right hba
      omega
    · calc a = M * (a / M) + a % M := (Nat.div_add_mod a M).symm
        _ < M * (a / M) + b % M := Nat.add_lt_add_left hmod _
        _ = M * (b / M) + b % M := by rw [heq]
        _ = b := Nat.div_add_mod b M

/-- On `w`-byte big-endian encodings, sled's lexicographic byte order agrees
with numeric order. -/
theorem bytesLt_beBytes : ∀ (w a b : Nat), a < 256 ^ w → b < 256 ^ w →
    (bytesLt (beBytes w a) (beBytes w b) = true ↔ a < b)
  | 0, a, b, ha, hb => by
    simp only [pow_zero, Nat.lt_one_iff] at ha hb
    subst ha
    subst hb
    simp [beBytes, bytesLt]
  | w + 1, a, b, ha, hb => by
    have hM : 0 < 256 ^ w := pow_pos (by norm_num) w
    have hda : a / 256 ^ w < 256 := by
      apply Nat.div_lt_of_lt_mul
      rw [← pow_succ]
      exact ha
    have hdb : b / 256 ^ w < 256 := by
      apply Nat.div_lt_of_lt_mul
      rw [← pow_succ]
      exact hb
    have hsplit := nat_lt_iff_div_lt_or_mod_lt (256 ^ w) a b hM
    have hrec := bytesLt_beBytes w (a % 256 ^ w) (b % 256 ^ w)
      (Nat.mod_lt _ hM) (Nat.mod_lt _ hM)
    simp only [beBytes, bytesLt, Nat.mod_eq_of_lt hda, Nat.mod_eq_of_lt hdb]
    rcases Nat.lt_trichotomy (a / 256 ^ w) (b / 256 ^ w) with hq | hq | hq
    · rw [if_pos hq]
      constructor
      · intro _
        exact hsplit.mpr (Or.inl hq)
      · intro _
        rfl
    · rw [if_neg (by omega), if_neg (by omega), hrec, hsplit]
      constructor
      · intro h
        exact Or.inr ⟨hq, h⟩
      · intro h
        rcases h with h | ⟨_, h⟩
        · omega
        · exact h
    · rw [if_neg (by omega), if_pos hq]
      constructor
      · intro h
        exact absurd h Bool.false_ne_true
      · intro h
        rcases hsplit.mp h with h1 | ⟨h1, _⟩ <;> omega

/-! ## The sled tree model

A sled tree is an ordered map from byte keys to values.  The Updates and
Updates-Results trees are keyed by `u64_to_be_bytes id`; by
`bytesLt_beBytes` the byte order of those keys coincides with the numeric
order of the ids, so the model keys trees by `Nat` directly.  A tree value
is a strictly key-sorted association list; `iter().next()` is `head?`. -/
abbrev SledTree (α : Type) :=
  List (Nat × α)

/-- The keys of a tree, in storage order. -/
def SledTree.keys {α : Type} (t : SledTree α) : List Nat :=
  t.map Prod.fst

/-- Sled stores keys in strictly increasing order. -/
abbrev SledTree.KeySorted {α : Type} (t : SledTree α) : Prop :=
  List.Pairwise (fun a b => a < b) t.keys

@[simp] theorem SledTree.keys_nil {α : Type} :
    SledTree.keys ([] : SledTree α) = [] := rfl

@[simp] theorem SledTree.keys_cons {α : Type} (k : Nat) (v : α) (t : SledTree α) :
    SledTree.keys ((k, v) :: t) = k :: SledTree.keys t := rfl

/-- Point lookup (`tree.get(key)`). -/
def SledTree.lookup {α : Type} : SledTree α → Nat → Option α
  | [], _ => none
  | (k, v) :: t, q => if q = k then some v else SledTree.lookup t q

/-- Sorted insert, replacing an existing binding (`tree.insert(key, value)`). -/
def SledTree.insert {α : Type} : SledTree α → Nat → α → SledTree α
  | [], k, v => [(k, v)]
  | (k', v') :: t, k, v =>
    if k < k' then (k, v) :: (k', v') :: t
    else if k = k' then (k, v) :: t
    else (k', v') :: SledTree.insert t k v

/-- Removal of a key (`tree.remove(key)`); on a key-sorted tree at most one
entry carries the key. -/
def SledTree.erase {α : Type} : SledTree α → Nat → SledTree α
  | [], _ => []
  | (k, v) :: t, q => if q = k then t else (k, v) :: SledTree.erase t q

theorem SledTree.lookup_insert_self {α : Type} (t : SledTree α) (k : Nat) (v : α) :
    SledTree.lookup (SledTree.insert t k v) k = some v := by
  induction t with
  | nil => simp [SledTree.insert, SledTree.lookup]
  | cons hd tl ih =>
    obtain ⟨k', v'⟩ := hd
    simp only [SledTree.insert]
    by_cases h1 : k < k'
    · simp [h1, SledTree.lookup]
    · by_cases h2 : k = k'
      · simp [h1, h2, SledTree.lookup]
      · simp [h1, h2, SledTree.lookup, ih]

theorem SledTree.lookup_insert_ne {α : Type} (t : SledTree α) (k : Nat) (v : α)
    (q : Nat) (hq : q ≠ k) :
    SledTree.lookup (SledTree.insert t k v) q = SledTree.lookup t q := by
  induction t with
  | nil => simp [SledTree.insert, SledTree.lookup, hq]
  | cons hd tl ih =>
    obtain ⟨k', v'⟩ := hd
    simp only [SledTree.insert]
    by_cases h1 : k < k'
    · rw [if_pos h1]
      simp only [SledTree.lookup, if_neg hq]
    · rw [if_neg h1]
      by_cases h2 : k = k'
      · rw [if_pos h2]
        subst h2
        simp only [SledTree.lookup, if_neg hq]
      · rw [if_neg h2]
        simp only [SledTree.lookup]
        by_cases h3 : q = k'
        · rw [if_pos h3, if_pos h3]
        · rw [if_neg h3, if_neg h3, ih]

theorem SledTree.lookup_eq_none_iff {α : Type} (t : SledTree α) (q : Nat) :
    SledTree.lookup t q = none ↔ q ∉ SledTree.keys t := by
  induction t with
  | nil => simp [SledTree.lookup]
  | cons hd tl ih =>
    obtain ⟨k, v⟩ := hd
    by_cases h : q = k
    · simp [SledTree.lookup, h]
    · simp [SledTree.lookup, h, ih]

theorem SledTree.mem_keys_insert {α : Type} (t : SledTree α) (k : Nat) (v : α)
    (q : Nat) :
    q ∈ SledTree.keys (SledTree.insert t k v) ↔ q = k ∨ q ∈ SledTree.keys t := by
  induction t with
  | nil => simp [SledTree.insert]
  | cons hd tl ih =>
    obtain ⟨k', v'⟩ := hd
    simp only [SledTree.insert]
    by_cases h1 : k < k'
    · rw [if_pos h1]
      simp only [SledTree.keys_cons, List.mem_cons]
    · rw [if_neg h1]
      by_cases h2 : k = k'
      · rw [if_pos h2]
        subst h2
        simp only [SledTree.keys_cons, List.mem_cons]
        tauto
      · rw [if_neg h2]
        simp only [SledTree.keys_cons, List.mem_cons, ih]
        tauto

theorem SledTree.mem_keys_erase_of_ne {α : Type} (t : SledTree α) (k : Nat)
    (q : Nat) (hq : q ≠ k) :
    q ∈ SledTree.keys (SledTree.erase t k) ↔ q ∈ SledTree.keys t := by
  induction t with
  | nil => simp [SledTree.erase]
  | cons hd tl ih =>
    obtain ⟨k', v'⟩ := hd
    simp only [SledTree.erase]
    by_cases h : k = k'
    · rw [if_pos h]
      subst h
      simp [List.mem_cons, hq]
    · rw [if_neg h]
      simp only [SledTree.keys_cons, List.mem_cons, ih]

theorem SledTree.not_mem_keys_erase_self {α : Type} (t : SledTree α) (k : Nat)
    (hnd : (SledTree.keys t).Nodup) :
    k ∉ SledTree.keys (SledTree.erase t k) := by
  induction t with
  | nil => simp [SledTree.erase]
  | cons hd tl ih =>
    obtain ⟨k', v'⟩ := hd
    simp only [SledTree.keys_cons, List.nodup_cons] at hnd
    simp only [SledTree.erase]
    by_cases h : k = k'
    · rw [if_pos h]
      subst h
      exact hnd.1
    · rw [if_neg h]
      simp only [SledTree.keys_cons, List.mem_cons]
      rintro (rfl | hmem)
      · exact h rfl
      · exact ih hnd.2 hmem

theorem SledTree.keys_erase_subset {α : Type} (t : SledTree α) (k : Nat) :
    ∀ q, q ∈ SledTree.keys (SledTree.erase t k) → q ∈ SledTree.keys t := by
  induction t with
  | nil => simp [SledTree.erase]
  | cons hd tl ih =>
    obtain ⟨k', v'⟩ := hd
    simp only [SledTree.erase]
    by_cases h : k = k'
    · rw [if_pos h]
      intro q hq
      simp only [SledTree.keys_cons, List.mem_cons]
      exact Or.inr hq
    · rw [if_neg h]
      intro q hq
      simp only [SledTree.keys_cons, List.mem_cons] at hq ⊢
      rcases hq with rfl | hq
      · exact Or.inl rfl
      · exact Or.inr (ih q hq)

/-! ## The update codec

`push_documents_addition` and friends serialize the `Update` enum with
`rmp_serde::to_vec_named` and the worker deserializes the queued payload into
`UpdateOwned` with `rmp_serde::from_read_ref`.  The byte layer belongs to the
external `rmp`/`rmp_serde` crates; the codec is modelled at the MessagePack
value level (`Value` mirrors `rmpv::Value`), where a serde enum with the
named encoding is a single-entry map from the variant name to its payload. -/
inductive Value : Type where
  | nil : Value
  | int (n : Nat) : Value
  | str (s : String) : Value
  | arr (l : List Value) : Value
  | map (l : List (Value × Value)) : Value

/-- The four-variant `Update` enum (the `Serialize` side used at enqueue).
`DocumentId` is a `u64` newtype, modelled as `Nat`; a `BTreeMap` is modelled
by its ordered entry sequence. -/
inductive Update : Type where
  | documentsAddition (documents : List Value) : Update
  | documentsDeletion (documents : List Nat) : Update
  | synonymsAddition (synonyms : List (String × List String)) : Update
  | synonymsDeletion (synonyms : List (String × Option (List String))) : Update

/-- The four-variant `UpdateOwned` enum (the `Deserialize` side used by the
worker); field-for-field identical to `Update`. -/
inductive UpdateOwned : Type where
  | documentsAddition (documents : List Value) : UpdateOwned
  | documentsDeletion (documents : List Nat) : UpdateOwned
  | synonymsAddition (synonyms : List (String × List String)) : UpdateOwned
  | synonymsDeletion (synonyms : List (String × Option (List String))) : UpdateOwned

/-- The evident identification of the two mirror-image enums. -/
def Update.toOwned : Update → UpdateOwned
  | .documentsAddition documents => .documentsAddition documents
  | .documentsDeletion documents => .documentsDeletion documents
  | .synonymsAddition synonyms => .synonymsAddition synonyms
  | .synonymsDeletion synonyms => .synonymsDeletion synonyms

/-- Encoding of `Option (Vec String)`: serde encodes `None` as nil and
`Some` transparently. -/
def encodeOptStrList : Option (List String) → Value
  | none => Value.nil
  | some l => Value.arr (l.map Value.str)

/-- Serialization used at enqueue (`rmp_serde::to_vec_named`), at the
MessagePack value level: a variant is a single-entry map tagged with the
variant name. -/
def Update.serialize : Update → Value
  | .documentsAddition documents =>
    Value.map [(Value.str "DocumentsAddition", Value.arr documents)]
  | .documentsDeletion documents =>
    Value.map [(Value.str "DocumentsDeletion", Value.arr (documents.map Value.int))]
  | .synonymsAddition synonyms =>
    Value.map [(Value.str "SynonymsAddition",
      Value.map (synonyms.map fun p => (Value.str p.1, Value.arr (p.2.map Value.str))))]
  | .synonymsDeletion synonyms =>
    Value.map [(Value.str "SynonymsDeletion",
      Value.map (synonyms.map fun p => (Value.str p.1, encodeOptStrList p.2)))]

def decodeNat : Value → Option Nat
  | Value.int n => some n
  | _ => none

def decodeStr : Value → Option String
  | Value.str s => some s
  | _ => none

def decodeNatList : List Value → Option (List Nat)
  | [] => some []
  | v :: vs =>
    match decodeNat v, decodeNatList vs with
    | some n, some ns => some (n :: ns)
    | _, _ => none

def decodeStrList : List Value → Option (List String)
  | [] => some []
  | v :: vs =>
    match decodeStr v, decodeStrList vs with
    | some s, some ss => some (s :: ss)
    | _, _ => none

def decodeOptStrList : Value → Option (Option (List String))
  | Value.nil => some none
  | Value.arr l => (decodeStrList l).map some
  | _ => none

def decodeSynEntry : Value × Value → Option (String × List String)
  | (Value.str k, Value.arr vs) => (decodeStrList vs).map fun ss => (k, ss)
  | _ => none

def decodeSynList : List (Value × Value) → Option (List (String × List String))
  | [] => some []
  | e :: es =>
    match decodeSynEntry e, decodeSynList es with
    | some x, some xs => some (x :: xs)
    | _, _ => none

def decodeSynOptEntry : Value × Value → Option (String × Option (List String))
  | (Value.str k, v) => (decodeOptStrList v).map fun o => (k, o)
  | _ => none

def decodeSynOptList :
    List (Value × Value) → Option (List (String × Option (List String)))
  | [] => some []
  | e :: es =>
    match decodeSynOptEntry e, decodeSynOptList es with
    | some x, some xs => some (x :: xs)
    | _, _ => none

/-- Deserialization used by the worker (`rmp_serde::from_read_ref` into
`UpdateOwned`): recognize the variant-name tag and decode the payload;
anything else is a decoding failure. -/
def decodeUpdateOwned : Value → Option UpdateOwned
  | Value.map [(Value.str tag, payload)] =>
    if tag = "DocumentsAddition" then
      match payload with
      | Value.arr documents => some (UpdateOwned.documentsAddition documents)
      | _ => none
    else if tag = "DocumentsDeletion" then
      match payload with
      | Value.arr l => (decodeNatList l).map UpdateOwned.documentsDeletion
      | _ => none
    else if tag = "SynonymsAddition" then
      match payload with
      | Value.map l => (decodeSynList l).map UpdateOwned.synonymsAddition
      | _ => none
    else if tag = "SynonymsDeletion" then
      match payload with
      | Value.map l => (decodeSynOptList l).map UpdateOwned.synonymsDeletion
      | _ => none
    else none
  | _ => none

theorem decodeNatList_map_int (l : List Nat) :
    decodeNatList (l.map Value.int) = some l := by
  induction l with
  | nil => rfl
  | cons x xs ih => simp [decodeNatList, decodeNat, ih]

theorem decodeStrList_map_str (l : List String) :
    decodeStrList (l.map Value.str) = some l := by
  induction l with
  | nil => rfl
  | cons x xs ih => simp [decodeStrList, decodeStr, ih]

theorem decodeOptStrList_encode (o : Option (List String)) :
    decodeOptStrList (encodeOptStrList o) = some o := by
  cases o with
  | none => rfl
  | some l => simp [encodeOptStrList, decodeOptStrList, decodeStrList_map_str]

theorem decodeSynList_encode (l : List (String × List String)) :
    decodeSynList (l.map fun p => (Value.str p.1, Value.arr (p.2.map Value.str)))
      = some l := by
  induction l with
  | nil => rfl
  | cons p ps ih =>
    obtain ⟨k, v⟩ := p
    simp [decodeSynList, decodeSynEntry, decodeStrList_map_str, ih]

theorem decodeSynOptList_encode (l : List (String × Option (List String))) :
    decodeSynOptList (l.map fun p => (Value.str p.1, encodeOptStrList p.2))
      = some l := by
  induction l with
  | nil => rfl
  | cons p ps ih =>
    obtain ⟨k, v⟩ := p
    simp [decodeSynOptList, decodeSynOptEntry, decodeOptStrList_encode, ih]

/-- C8: For every value of the four-variant Update type (DocumentsAddition,
DocumentsDeletion, SynonymsAddition, SynonymsDeletion), serializing it with
the tagged named-field encoding used at enqueue and then deserializing with
the decoder used by the worker yields a value equal to the original: the
`Update`/`UpdateOwned` round-trip is the identity (up to the evident
identification `Update.toOwned` of the two mirror-image enums). -/
theorem update_codec_roundtrip (u : Update) :
    decodeUpdateOwned (Update.serialize u) = some u.toOwned := by
  cases u with
  | documentsAddition documents =>
    simp [Update.serialize, decodeUpdateOwned, Update.toOwned]
  | documentsDeletion documents =>
    simp [Update.serialize, decodeUpdateOwned, Update.toOwned,
      decodeNatList_map_int]
  | synonymsAddition synonyms =>
    simp [Update.serialize, decodeUpdateOwned, Update.toOwned,
      decodeSynList_encode]
  | synonymsDeletion synonyms =>
    simp [Update.serialize, decodeUpdateOwned, Update.toOwned,
      decodeSynOptList_encode]

/-! ## The update worker

`spawn_update_system` runs a loop that, while the Updates tree is nonempty,
takes its first entry (`iter().next()`, the lowest key), and inside one
transaction spanning the Updates and Updates-Results trees removes the entry,
decodes it (panicking on failure — the `unwrap` on `from_read_ref`), runs the
matching applier, builds an `UpdateStatus`, and inserts its serialization
under the same key.  One execution of that transaction is
`update_system_step`; the transaction is atomic, so the step is a single
transition of the observable state.  The appliers live in
`crate::database` and are abstracted as a parameter; the worker only
inspects their `Result` through `map_err(|e| e.to_string())`. -/

/-- `UpdateType` with its count field (`number`). -/
inductive UpdateType : Type where
  | documentsAddition (number : Nat) : UpdateType
  | documentsDeletion (number : Nat) : UpdateType
  | synonymsAddition (number : Nat) : UpdateType
  | synonymsDeletion (number : Nat) : UpdateType

/-- The `update_type` recorded for a decoded update: the variant plus the
batch size (`documents.len()` / `synonyms.len()`). -/
def updateTypeOf : UpdateOwned → UpdateType
  | .documentsAddition documents => .documentsAddition documents.length
  | .documentsDeletion documents => .documentsDeletion documents.length
  | .synonymsAddition synonyms => .synonymsAddition synonyms.length
  | .synonymsDeletion synonyms => .synonymsDeletion synonyms.length

/-- An applier error (`crate::database::Error` as seen by the worker: only
its `to_string()` is used). -/
structure ApplyError : Type where
  msg : String

def ApplyError.toString (e : ApplyError) : String :=
  e.msg

/-- `UpdateStatus { update_id, update_type, result, .. }`.  The
`detailed_duration` field is wall-clock time measured with `Instant::now`;
it carries no program-determined content and is not modelled. -/
structure UpdateStatus : Type where
  update_id : Nat
  update_type : UpdateType
  result : Except String Unit

/-- An applier as the worker sees it: one of `apply_documents_addition`,
`apply_documents_deletion`, `apply_synonyms_addition`,
`apply_synonyms_deletion` (code of `crate::database`, external to this
module), returning `Result<(), Error>`. -/
abbrev Applier : Type :=
  UpdateOwned → Except ApplyError Unit

/-- `result.map_err(|e| e.to_string())`. -/
def mapErrToString (r : Except ApplyError Unit) : Except String Unit :=
  match r with
  | Except.ok a => Except.ok a
  | Except.error e => Except.error e.toString

/-- The status built by the worker for update `key` decoded to `upd` whose
applier returned `r`. -/
def mkStatus (key : Nat) (upd : UpdateOwned) (r : Except ApplyError Unit) :
    UpdateStatus :=
  { update_id := key, update_type := updateTypeOf upd,
    result := mapErrToString r }

/-- The observable state of the two queue trees: `<idx>-updates` (pending
payloads) and `<idx>-updates-results` (completion records). -/
structure WorkerState : Type where
  updates : SledTree Value
  results : SledTree UpdateStatus

/-- Outcome of one iteration of the worker's drain loop: the transaction
committed (`progressed`), the queue was empty so the worker blocks on its
subscription (`blocked`), or an `unwrap` inside the transaction panicked and
the transaction never committed (`panicked`). -/
inductive StepOutcome : Type where
  | progressed (s : WorkerState) : StepOutcome
  | blocked : StepOutcome
  | panicked : StepOutcome

/-- One iteration of the worker loop of `spawn_update_system`: take the
lowest-keyed entry of Updates (`iter().next()`); inside one transaction
remove it, decode it (`from_read_ref(..).unwrap()` — a decode failure
panics), run the applier, and insert the resulting `UpdateStatus` into
Updates-Results under the same key.  The transaction commits atomically,
so the whole body is one transition. -/
def update_system_step (applier : Applier) (s : WorkerState) : StepOutcome :=
  match s.updates.head? with
  | none => StepOutcome.blocked
  | some (key, payload) =>
    match decodeUpdateOwned payload with
    | none => StepOutcome.panicked
    | some upd =>
      StepOutcome.progressed
        { updates := s.updates.erase key
          results := s.results.insert key (mkStatus key upd (applier upd)) }

theorem update_system_step_progressed_inv (applier : Applier)
    (s s' : WorkerState)
    (h : update_system_step applier s = StepOutcome.progressed s') :
    ∃ key payload upd,
      s.updates.head? = some (key, payload) ∧
      decodeUpdateOwned payload = some upd ∧
      s' = { updates := s.updates.erase key
             results := s.results.insert key (mkStatus key upd (applier upd)) } := by
  cases hh : s.updates.head? with
  | none => simp [update_system_step, hh] at h
  | some kp =>
    obtain ⟨key, payload⟩ := kp
    cases hd : decodeUpdateOwned payload with
    | none => simp [update_system_step, hh, hd] at h
    | some upd =>
      refine ⟨key, payload, upd, rfl, hd, ?_⟩
      simp [update_system_step, hh, hd] at h
      exact h.symm

/-- The drain loop of `spawn_update_system`, run for `fuel` iterations or
until the queue empties or the worker panics; returns the list of update ids
processed, in processing order, together with the final state. -/
def update_system_drain (applier : Applier) :
    Nat → WorkerState → List Nat × WorkerState
  | 0, s => ([], s)
  | fuel + 1, s =>
    match s.updates.head?, update_system_step applier s with
    | some kp, StepOutcome.progressed s' =>
      let rest := update_system_drain applier fuel s'
      (kp.1 :: rest.1, rest.2)
    | _, _ => ([], s)

/-- C1: For every update drained by the update worker, the removal of the
update's key from the Updates tree and the insertion of the serialized
UpdateStatus into the Updates-Results tree under that same key happen in one
atomic transaction (one `update_system_step` transition), so at every
observable moment outside the transaction no update id is present in both
trees, and every id removed from Updates appears in Updates-Results. -/
theorem apply_moves_update_atomically (applier : Applier) (s s' : WorkerState)
    (hnd : (SledTree.keys s.updates).Nodup)
    (hdisj : ∀ k, k ∈ SledTree.keys s.updates → k ∉ SledTree.keys s.results)
    (hstep : update_system_step applier s = StepOutcome.progressed s') :
    (∀ k, k ∈ SledTree.keys s'.updates → k ∉ SledTree.keys s'.results) ∧
    (∀ k, k ∈ SledTree.keys s.updates → k ∉ SledTree.keys s'.updates →
      k ∈ SledTree.keys s'.results) := by
  obtain ⟨key, payload, upd, hh, hd, rfl⟩ :=
    update_system_step_progressed_inv applier s s' hstep
  constructor
  · intro k hk hr
    have hk0 : k ∈ SledTree.keys s.updates :=
      SledTree.keys_erase_subset _ _ k hk
    rcases (SledTree.mem_keys_insert _ _ _ _).mp hr with rfl | hr0
    · exact SledTree.not_mem_keys_erase_self _ _ hnd hk
    · exact hdisj k hk0 hr0
  · intro k hk hk'
    by_cases hke : k = key
    · subst hke
      exact (SledTree.mem_keys_insert _ _ _ _).mpr (Or.inl rfl)
    · exact absurd ((SledTree.mem_keys_erase_of_ne _ _ _ hke).mpr hk) hk'

theorem apply_moves_update_atomically_witness :
    (∀ k, k ∈ SledTree.keys (([] : SledTree Value)) →
      k ∉ SledTree.keys
        [(3, mkStatus 3 (UpdateOwned.documentsDeletion []) (Except.ok ()))]) ∧
    (∀ k,
      k ∈ SledTree.keys
        [(3, Value.map [(Value.str "DocumentsDeletion", Value.arr [])])] →
      k ∉ SledTree.keys (([] : SledTree Value)) →
      k ∈ SledTree.keys
        [(3, mkStatus 3 (UpdateOwned.documentsDeletion []) (Except.ok ()))]) :=
  apply_moves_update_atomically (fun _ => Except.ok ())
    ⟨[(3, Value.map [(Value.str "DocumentsDeletion", Value.arr [])])], []⟩
    ⟨[], [(3, mkStatus 3 (UpdateOwned.documentsDeletion []) (Except.ok ()))]⟩
    (by decide)
    (fun k _ => List.not_mem_nil k)
    (by rfl)

/-- C2: The update worker always takes the lowest-keyed entry of the Updates
tree next (its first entry, the tree being key-sorted), so for every queue of
enqueued, decodable updates the drain processes exactly the keys of the
Updates tree in increasing key order — the order the updates were enqueued,
ids being monotonically generated — inserts a result for every one of them
into Updates-Results, touches no other result key (no update skipped or
applied twice), and empties the queue. -/
theorem worker_drains_in_enqueue_order (applier : Applier)
    (u : SledTree Value) (r : SledTree UpdateStatus)
    (hsorted : SledTree.KeySorted u)
    (hdec : ∀ kp ∈ u, (decodeUpdateOwned kp.2).isSome = true) :
    (update_system_drain applier u.length ⟨u, r⟩).1 = SledTree.keys u ∧
    (update_system_drain applier u.length ⟨u, r⟩).2.updates = [] ∧
    (∀ k, k ∈ SledTree.keys u →
      ((update_system_drain applier u.length ⟨u, r⟩).2.results.lookup k).isSome
        = true) ∧
    (∀ k, k ∉ SledTree.keys u →
      (update_system_drain applier u.length ⟨u, r⟩).2.results.lookup k
        = SledTree.lookup r k) := by
  induction u generalizing r with
  | nil =>
    refine ⟨rfl, rfl, ?_, ?_⟩
    · intro k hk
      exact absurd hk (List.not_mem_nil k)
    · intro k _
      rfl
  | cons hd tl ih =>
    obtain ⟨key, payload⟩ := hd
    obtain ⟨upd, hupd⟩ := Option.isSome_iff_exists.mp
      (hdec (key, payload) (List.mem_cons_self _ _))
    have hpair : List.Pairwise (fun a b => a < b) (key :: SledTree.keys tl) := by
      simpa [SledTree.KeySorted] using hsorted
    have hpc := List.pairwise_cons.mp hpair
    have hsorted' : SledTree.KeySorted tl := hpc.2
    have hkeynot : key ∉ SledTree.keys tl :=
      fun h => lt_irrefl key (hpc.1 key h)
    have hdec' : ∀ kp ∈ tl, (decodeUpdateOwned kp.2).isSome = true :=
      fun kp hkp => hdec kp (List.mem_cons_of_mem _ hkp)
    have hstep : update_system_step applier ⟨(key, payload) :: tl, r⟩ =
        StepOutcome.progressed
          ⟨tl, r.insert key (mkStatus key upd (applier upd))⟩ := by
      simp [update_system_step, hupd, SledTree.erase]
    have hdrain :
        update_system_drain applier ((key, payload) :: tl).length
          ⟨(key, payload) :: tl, r⟩
        = (key :: (update_system_drain applier tl.length
            ⟨tl, r.insert key (mkStatus key upd (applier upd))⟩).1,
           (update_system_drain applier tl.length
            ⟨tl, r.insert key (mkStatus key upd (applier upd))⟩).2) := by
      rw [show ((key, payload) :: tl).length = tl.length + 1 from rfl]
      simp only [update_system_drain, hstep, List.head?_cons]
    obtain ⟨ih1, ih2, ih3, ih4⟩ :=
      ih (r.insert key (mkStatus key upd (applier upd))) hsorted' hdec'
    rw [hdrain]
    refine ⟨?_, ?_, ?_, ?_⟩
    · simpa using ih1
    · simpa using ih2
    · intro k hk
      rcases List.mem_cons.mp hk with rfl | hk
      · have := ih4 k hkeynot
        simp only at this ⊢
        rw [this, SledTree.lookup_insert_self]
        rfl
      · simpa using ih3 k hk
    · intro k hk
      have hk1 : k ≠ key := fun h => hk (h ▸ List.mem_cons_self _ _)
      have hk2 : k ∉ SledTree.keys tl :=
        fun h => hk (List.mem_cons_of_mem _ h)
      have := ih4 k hk2
      simp only at this ⊢
      rw [this, SledTree.lookup_insert_ne _ _ _ _ hk1]

theorem worker_drains_in_enqueue_order_witness :
    (update_system_drain (fun _ => Except.ok ()) 2
      ⟨[(1, Value.map [(Value.str "SynonymsAddition", Value.map [])]),
        (4, Value.map [(Value.str "DocumentsDeletion", Value.arr [])])], []⟩).1
      = [1, 4] ∧
    (update_system_drain (fun _ => Except.ok ()) 2
      ⟨[(1, Value.map [(Value.str "SynonymsAddition", Value.map [])]),
        (4, Value.map [(Value.str "DocumentsDeletion", Value.arr [])])], []⟩).2.updates
      = [] ∧
    (∀ k, k ∈ SledTree.keys
        [(1, Value.map [(Value.str "SynonymsAddition", Value.map [])]),
         (4, Value.map [(Value.str "DocumentsDeletion", Value.arr [])])] →
      ((update_system_drain (fun _ => Except.ok ()) 2
        ⟨[(1, Value.map [(Value.str "SynonymsAddition", Value.map [])]),
          (4, Value.map [(Value.str "DocumentsDeletion", Value.arr [])])], []⟩).2.results.lookup k).isSome
        = true) ∧
    (∀ k, k ∉ SledTree.keys
        [(1, Value.map [(Value.str "SynonymsAddition", Value.map [])]),
         (4, Value.map [(Value.str "DocumentsDeletion", Value.arr [])])] →
      (update_system_drain (fun _ => Except.ok ()) 2
        ⟨[(1, Value.map [(Value.str "SynonymsAddition", Value.map [])]),
          (4, Value.map [(Value.str "DocumentsDeletion", Value.arr [])])], []⟩).2.results.lookup k
        = SledTree.lookup ([] : SledTree UpdateStatus) k) :=
  worker_drains_in_enqueue_order (fun _ => Except.ok ())
    [(1, Value.map [(Value.str "SynonymsAddition", Value.map [])]),
     (4, Value.map [(Value.str "DocumentsDeletion", Value.arr [])])] []
    (by decide)
    (by
      intro kp hkp
      rcases List.mem_cons.mp hkp with rfl | hkp
      · rfl
      · rcases List.mem_cons.mp hkp with rfl | hkp
        · rfl
        · exact absurd hkp (List.not_mem_nil _))

/-- C5: For every update whose applier returns an error, the worker records
the status with result `Err(message)` — the applier error converted to a
string — the update is still consumed (removed from the Updates tree, its
status inserted into Updates-Results under its key), and the step still
progresses, so the worker proceeds to subsequent updates. -/
theorem applier_error_recorded (applier : Applier) (s : WorkerState)
    (key : Nat) (payload : Value) (upd : UpdateOwned) (e : ApplyError)
    (hh : s.updates.head? = some (key, payload))
    (hd : decodeUpdateOwned payload = some upd)
    (he : applier upd = Except.error e) :
    update_system_step applier s = StepOutcome.progressed
      { updates := s.updates.erase key
        results := s.results.insert key
          { update_id := key, update_type := updateTypeOf upd,
            result := Except.error e.msg } } ∧
    SledTree.lookup
      (s.results.insert key
        { update_id := key, update_type := updateTypeOf upd,
          result := Except.error e.msg }) key
      = some { update_id := key, update_type := updateTypeOf upd,
               result := Except.error e.msg } := by
  constructor
  · simp [update_system_step, hh, hd, he, mkStatus, mapErrToString,
      ApplyError.toString]
  · exact SledTree.lookup_insert_self _ _ _

theorem applier_error_recorded_witness :
    update_system_step (fun _ => Except.error ⟨"boom"⟩)
      ⟨[(2, Value.map [(Value.str "SynonymsAddition", Value.map [])])], []⟩
      = StepOutcome.progressed
        { updates := SledTree.erase
            [(2, Value.map [(Value.str "SynonymsAddition", Value.map [])])] 2
          results := SledTree.insert ([] : SledTree UpdateStatus) 2
            { update_id := 2,
              update_type := updateTypeOf (UpdateOwned.synonymsAddition []),
              result := Except.error "boom" } } ∧
    SledTree.lookup
      (SledTree.insert ([] : SledTree UpdateStatus) 2
        { update_id := 2,
          update_type := updateTypeOf (UpdateOwned.synonymsAddition []),
          result := Except.error "boom" }) 2
      = some { update_id := 2,
               update_type := updateTypeOf (UpdateOwned.synonymsAddition []),
               result := Except.error "boom" } :=
  applier_error_recorded (fun _ => Except.error ⟨"boom"⟩)
    ⟨[(2, Value.map [(Value.str "SynonymsAddition", Value.map [])])], []⟩
    2 (Value.map [(Value.str "SynonymsAddition", Value.map [])])
    (UpdateOwned.synonymsAddition []) ⟨"boom"⟩ rfl rfl rfl

/-- C4 counterexample: the claim says a queued payload that fails to decode
is still consumed and recorded as a failed result; but at the concrete
malformed payload `Value.int 7` the worker's transaction hits the `unwrap`
on `rmp_serde::from_read_ref` and panics — the step does not progress, so
nothing is consumed and no result is recorded. -/
theorem decode_failure_not_recorded_cex :
    update_system_step (fun _ => Except.ok ()) ⟨[(0, Value.int 7)], []⟩
      = StepOutcome.panicked ∧
    ¬ ∃ s', update_system_step (fun _ => Except.ok ()) ⟨[(0, Value.int 7)], []⟩
      = StepOutcome.progressed s' := by
  refine ⟨rfl, ?_⟩
  rintro ⟨s', h⟩
  rw [show update_system_step (fun _ => Except.ok ()) ⟨[(0, Value.int 7)], []⟩
    = StepOutcome.panicked from rfl] at h
  exact StepOutcome.noConfusion h

/-- C4 (amended): for every queued payload that fails to decode as one of the
four Update variants, the worker's transaction panics on the decode `unwrap`:
the transaction never commits, so the queue entry is not consumed and no
failed update result is recorded — the worker thread crashes instead of
recording an unknown-or-malformed status. -/
theorem decode_failure_panics (applier : Applier) (s : WorkerState)
    (key : Nat) (payload : Value)
    (hh : s.updates.head? = some (key, payload))
    (hd : decodeUpdateOwned payload = none) :
    update_system_step applier s = StepOutcome.panicked := by
  simp [update_system_step, hh, hd]

theorem decode_failure_panics_witness :
    update_system_step (fun _ => Except.ok ()) ⟨[(1, Value.int 7)], []⟩
      = StepOutcome.panicked :=
  decode_failure_panics (fun _ => Except.ok ()) ⟨[(1, Value.int 7)], []⟩
    1 (Value.int 7) rfl rfl

/-! ## Index construction and schema resolution -/

/-- Schemas are opaque to this module: `Index::new_raw` only compares them
for equality and stores them, so they are modelled by an arbitrary token
type with decidable equality. -/
abbrev Schema : Type :=
  Nat

/-- The two construction errors `Index::new_raw` raises itself
(`Error::SchemaDiffer`, `Error::SchemaMissing`). -/
inductive OpenError : Type where
  | schemaDiffer : OpenError
  | schemaMissing : OpenError

/-- The schema-resolution step of `Index::new_raw`: given the caller-provided
schema and the schema persisted in the Main tree, return the opened index's
schema together with the Main tree's schema after the call (`set_schema`
writes it in the provided-but-not-persisted arm), or fail.  The match mirrors
the source's arms in order, including the `current != expected` guard. -/
def new_raw (schema : Option Schema) (persisted : Option Schema) :
    Except OpenError (Schema × Option Schema) :=
  match schema, persisted with
  | some expected, some current =>
    if current ≠ expected then Except.error OpenError.schemaDiffer
    else Except.ok (expected, some current)
  | some expected, none => Except.ok (expected, some expected)
  | none, some current => Except.ok (current, some current)
  | none, none => Except.error OpenError.schemaMissing

/-- C3: Opening an index whose Main tree holds a persisted schema with a
caller-provided schema that differs fails with SchemaDiffer; opening with no
caller-provided schema when none is persisted fails with SchemaMissing;
opening with no caller-provided schema when one is persisted succeeds and the
resulting index's `schema()` equals the persisted schema; opening with a
schema when none is persisted writes that schema and succeeds (and opening
with a matching schema succeeds, leaving the persisted schema unchanged). -/
theorem new_raw_schema_cases (p c : Schema) :
    (p ≠ c → new_raw (some p) (some c) = Except.error OpenError.schemaDiffer) ∧
    new_raw none none = Except.error OpenError.schemaMissing ∧
    new_raw none (some c) = Except.ok (c, some c) ∧
    new_raw (some p) none = Except.ok (p, some p) ∧
    new_raw (some p) (some p) = Except.ok (p, some p) := by
  refine ⟨?_, rfl, rfl, rfl, ?_⟩
  · intro h
    simp only [new_raw]
    rw [if_pos (Ne.symm h)]
  · simp only [new_raw]
    rw [if_neg (fun h => h rfl)]

theorem new_raw_schema_cases_witness :
    new_raw (some 1) (some 2) = Except.error OpenError.schemaDiffer ∧
    new_raw none none = Except.error OpenError.schemaMissing ∧
    new_raw none (some 2) = Except.ok (2, some 2) ∧
    new_raw (some 1) none = Except.ok (1, some 1) ∧
    new_raw (some 1) (some 1) = Except.ok (1, some 1) :=
  ⟨(new_raw_schema_cases 1 2).1 (by decide),
   (new_raw_schema_cases 1 2).2.1,
   (new_raw_schema_cases 1 2).2.2.1,
   (new_raw_schema_cases 1 2).2.2.2.1,
   (new_raw_schema_cases 1 2).2.2.2.2⟩

/-! ## Update status queries -/

/-- `Index::update_status`: look the id's 8-byte key up in Updates-Results
and decode the stored status (`bincode`, an external crate, modelled as the
identity on the stored status). -/
def update_status (results : SledTree UpdateStatus) (id : Nat) :
    Option UpdateStatus :=
  results.lookup id

/-- `Index::update_status_blocking`: the subscription on the prefix
`id_bytes` of Updates-Results is created BEFORE the first check, so no
insertion of the key can fall between check and subscription;
`resultsAtCheck` is the tree when `update_status` first runs and
`resultsAtWake` the tree after `subscription.next()` returns.  The final
`update_status(update_id)?.unwrap()` is the second lookup. -/
def update_status_blocking
    (resultsAtCheck resultsAtWake : SledTree UpdateStatus) (id : Nat) :
    Option UpdateStatus :=
  match update_status resultsAtCheck id with
  | some status => some status
  | none => update_status resultsAtWake id

/-- C6: `update_status_blocking(id)` subscribes to the prefix `id_bytes` on
the Updates-Results tree before checking `update_status(id)`; if the status
is already present it returns it immediately, otherwise it blocks on the
subscription's next event and then rereads and returns the status — so for
every id whose update eventually completes (its status is in Updates-Results
at wake time, that tree being insert-only), the call returns that update's
UpdateStatus. -/
theorem update_status_blocking_returns (t0 t1 : SledTree UpdateStatus)
    (id : Nat) (status : UpdateStatus)
    (hmono : ∀ k v, SledTree.lookup t0 k = some v →
      SledTree.lookup t1 k = some v)
    (hdone : SledTree.lookup t1 id = some status) :
    update_status_blocking t0 t1 id = some status ∧
    (update_status t0 id = some status →
      update_status_blocking t0 t0 id = some status) := by
  constructor
  · cases h0 : SledTree.lookup t0 id with
    | none =>
      simp [update_status_blocking, update_status, h0, hdone]
    | some s0 =>
      have heq : some s0 = some status := (hmono id s0 h0).symm.trans hdone
      simp [update_status_blocking, update_status, h0]
      exact Option.some.inj heq
  · intro h
    simp [update_status_blocking, h]

theorem update_status_blocking_returns_witness :
    update_status_blocking []
      [(5, { update_id := 5, update_type := UpdateType.documentsAddition 1,
             result := Except.ok () })] 5
      = some { update_id := 5, update_type := UpdateType.documentsAddition 1,
               result := Except.ok () } ∧
    (update_status [] 5
        = some { update_id := 5,
                 update_type := UpdateType.documentsAddition 1,
                 result := Except.ok () } →
      update_status_blocking [] [] 5
        = some { update_id := 5,
                 update_type := UpdateType.documentsAddition 1,
                 result := Except.ok () }) :=
  update_status_blocking_returns []
    [(5, { update_id := 5, update_type := UpdateType.documentsAddition 1,
           result := Except.ok () })] 5
    { update_id := 5, update_type := UpdateType.documentsAddition 1,
      result := Except.ok () }
    (fun k v h => by simp [SledTree.lookup] at h)
    rfl

/-! ## Enqueueing updates -/

/-- The sled `Db`'s monotonic id counter (`db.generate_id()`) together with
the Updates tree that `raw_push_update` inserts into. -/
structure DbState : Type where
  nextId : Nat
  updates : SledTree Value

/-- `db.generate_id()`: returns a fresh u64 id; successive ids are strictly
increasing, modelled by a counter. -/
def generate_id (db : DbState) : Nat × DbState :=
  (db.nextId, { db with nextId := db.nextId + 1 })

/-- `Index::raw_push_update`: generate the next id, encode it as the 8-byte
big-endian key (`u64_to_be_bytes`; the tree model keys by the id itself,
justified by `bytesLt_beBytes`), insert the serialized update into the
Updates tree under that key, and return the id. -/
def raw_push_update (db : DbState) (raw_update : Value) : Nat × DbState :=
  let g := generate_id db
  (g.1, { g.2 with updates := g.2.updates.insert g.1 raw_update })

/-- C7: For every staged mutation submitted through a builder, enqueue
generates the next u64 id, inserts the serialized update into the Updates
tree under that id's 8-byte big-endian key, and returns the id; two
successive enqueues on the same index return strictly increasing ids (and id
freshness is preserved); and big-endian key ordering equals numeric id
ordering on u64 values. -/
theorem raw_push_update_enqueue (db : DbState) (u v : Value)
    (hfresh : ∀ k, k ∈ SledTree.keys db.updates → k < db.nextId) :
    (raw_push_update db u).1 = db.nextId ∧
    SledTree.lookup (raw_push_update db u).2.updates (raw_push_update db u).1
      = some u ∧
    (raw_push_update db u).1 < (raw_push_update (raw_push_update db u).2 v).1 ∧
    (∀ k, k ∈ SledTree.keys (raw_push_update db u).2.updates →
      k < (raw_push_update db u).2.nextId) ∧
    (∀ a b : Nat, a < 2 ^ 64 → b < 2 ^ 64 →
      (bytesLt (u64_to_be_bytes a) (u64_to_be_bytes b) = true ↔ a < b)) := by
  have hpow : (256 : Nat) ^ 8 = 2 ^ 64 := by norm_num
  refine ⟨rfl, ?_, ?_, ?_, ?_⟩
  · exact SledTree.lookup_insert_self _ _ _
  · exact Nat.lt_succ_self db.nextId
  · intro k hk
    have hk' : k = db.nextId ∨ k ∈ SledTree.keys db.updates :=
      (SledTree.mem_keys_insert db.updates db.nextId u k).mp hk
    show k < db.nextId + 1
    rcases hk' with rfl | hk0
    · exact Nat.lt_succ_self _
    · exact Nat.lt_succ_of_lt (hfresh k hk0)
  · intro a b ha hb
    exact bytesLt_beBytes 8 a b (by rw [hpow]; exact ha) (by rw [hpow]; exact hb)

theorem raw_push_update_enqueue_witness :
    (raw_push_update ⟨0, []⟩ Value.nil).1 = 0 ∧
    SledTree.lookup (raw_push_update ⟨0, []⟩ Value.nil).2.updates
      (raw_push_update ⟨0, []⟩ Value.nil).1 = some Value.nil ∧
    (raw_push_update ⟨0, []⟩ Value.nil).1
      < (raw_push_update (raw_push_update ⟨0, []⟩ Value.nil).2 Value.nil).1 ∧
    (∀ k, k ∈ SledTree.keys (raw_push_update ⟨0, []⟩ Value.nil).2.updates →
      k < (raw_push_update ⟨0, []⟩ Value.nil).2.nextId) ∧
    (∀ a b : Nat, a < 2 ^ 64 → b < 2 ^ 64 →
      (bytesLt (u64_to_be_bytes a) (u64_to_be_bytes b) = true ↔ a < b)) :=
  raw_push_update_enqueue ⟨0, []⟩ Value.nil Value.nil
    (fun k hk => absurd hk (List.not_mem_nil k))

/-! ## Document retrieval -/

/-- A reconstructed document, as its `(attribute id, raw field bytes)`
pairs. -/
abbrev DocFields : Type :=
  List (Nat × Value)

/-- Modelled from the spec: the external document deserializer
(`crate::serde::Deserializer`, code of this repository that is not under
`src/`) driving `T::deserialize` over the stored fields of one document; its
behavior when every field of the document is missing follows the source's
own comment inside `Index::document` ("currently we return an error if all
document fields are missing"), the comment the spec's open-question note
refers to. -/
def deserialize_document (fields : DocFields) : Except String DocFields :=
  if fields.isEmpty then Except.error "all document fields are missing"
  else Except.ok fields

/-- The `src/` part of `Index::document`: run `T::deserialize` on the
deserializer and wrap a success in `Some` (the `.map(Some)`), propagating
errors. -/
def document (deserialized : Except String DocFields) :
    Except String (Option DocFields) :=
  match deserialized with
  | Except.ok doc => Except.ok (some doc)
  | Except.error e => Except.error e

/-- `Index::document` end to end on the stored fields of one document. -/
def document_of_fields (fields : DocFields) : Except String (Option DocFields) :=
  document (deserialize_document fields)

/-- C9 counterexample: at the concrete input of a document with no stored
fields, `document` does not return `Ok(Some _)`: the deserializer fails and
the error propagates, exactly as the source's own comment says ("currently
we return an error if all document fields are missing"). -/
theorem document_some_when_fields_missing_cex :
    document_of_fields [] = Except.error "all document fields are missing" ∧
    ¬ ∃ d, document_of_fields [] = Except.ok (some d) := by
  refine ⟨rfl, ?_⟩
  rintro ⟨d, h⟩
  rw [show document_of_fields []
    = Except.error "all document fields are missing" from rfl] at h
  exact Except.noConfusion h

/-- C9 (amended): `document(fields, id)` never returns `Ok(None)` — every
success is wrapped in `Some` by the `.map(Some)` — but when every field of
the document is missing the deserializer fails and `document` returns an
error (it does not return `Some`); when at least one field is present it
returns `Ok(Some document)`. -/
theorem document_never_ok_none (fields : DocFields) :
    (∀ r : Except String DocFields, document r ≠ Except.ok none) ∧
    (fields = [] →
      document_of_fields fields
        = Except.error "all document fields are missing") ∧
    (fields ≠ [] → document_of_fields fields = Except.ok (some fields)) := by
  refine ⟨?_, ?_, ?_⟩
  · intro r h
    cases r with
    | ok doc => exact Option.noConfusion (Except.ok.inj h)
    | error e => exact Except.noConfusion h
  · intro h
    subst h
    rfl
  · intro h
    have : fields.isEmpty = false := by
      cases fields with
      | nil => exact absurd rfl h
      | cons a l => rfl
    simp [document_of_fields, deserialize_document, this, document]

theorem document_never_ok_none_witness :
    document_of_fields [(0, Value.nil)] = Except.ok (some [(0, Value.nil)]) :=
  (document_never_ok_none [(0, Value.nil)]).2.2 (List.cons_ne_nil _ _)

/-! ## The read adapter -/

/-- The ranked map: `(document id, attribute id) ↦ rank value`. -/
abbrev RankedMap : Type :=
  List ((Nat × Nat) × Nat)

/-- The `Cache` bundle the worker swaps atomically: the words and synonyms
fst sets (modelled by their ordered term lists), the schema, and the ranked
map. -/
structure Cache : Type where
  words : List String
  synonyms : List String
  schema : Schema
  ranked_map : RankedMap

/-- Tree state read live through the borrowed tree handles: the words tree
(term ↦ its `DocIndex` postings, modelled opaquely) and the synonyms tree
(term ↦ alternatives). -/
structure LiveTrees : Type where
  words_tree : List (String × List Nat)
  synonyms_tree : List (String × List String)

/-- Lookup in a string-keyed tree (the words and synonyms trees are keyed by
UTF-8 term bytes). -/
def strLookup {α : Type} : List (String × α) → String → Option α
  | [], _ => none
  | (k, v) :: t, q => if q = k then some v else strLookup t q

/-- The index as a reader sees it: the swappable cache pointer plus the live
trees. -/
structure IndexState : Type where
  cache : Cache
  trees : LiveTrees

/-- `RefIndex`: `as_ref` captures `cache.load()` (a pinned guard), while its
tree fields are borrows that keep reading the live trees. -/
structure RefIndex : Type where
  cache : Cache

/-- `Index::as_ref`: load the cache once; the snapshot the `RefIndex` holds
is fixed at this moment. -/
def as_ref (i : IndexState) : RefIndex :=
  { cache := i.cache }

/-- `Store::words` for `RefIndex`: served from the captured snapshot. -/
def RefIndex.words (r : RefIndex) : List String :=
  r.cache.words

/-- `Store::synonyms` for `RefIndex`: served from the captured snapshot. -/
def RefIndex.synonyms (r : RefIndex) : List String :=
  r.cache.synonyms

/-- `Store::word_indexes` for `RefIndex`:
`self.words_index.doc_indexes(word)` reads the live words tree — `live` is
the index state at call time; the captured snapshot is not consulted. -/
def RefIndex.word_indexes (_r : RefIndex) (live : IndexState) (word : String) :
    Option (List Nat) :=
  strLookup live.trees.words_tree word

/-- `Store::alternatives_to` for `RefIndex`:
`self.synonyms_index.alternatives_to(word)` reads the live synonyms tree. -/
def RefIndex.alternatives_to (_r : RefIndex) (live : IndexState)
    (word : String) : Option (List String) :=
  strLookup live.trees.synonyms_tree word

/-- C10: For every `RefIndex` obtained from `as_ref`, `words()` and
`synonyms()` return values taken from the Cache snapshot loaded at `as_ref`
time — they depend only on the cache captured from `i`, so they are
unaffected by later snapshot swaps — whereas `word_indexes(term)` and
`alternatives_to(term)` read the live words and synonyms trees of the index
state at call time (`later`), so they can reflect updates applied after the
snapshot was loaded. -/
theorem ref_index_snapshot_and_live (i later : IndexState) (word : String) :
    (as_ref i).words = i.cache.words ∧
    (as_ref i).synonyms = i.cache.synonyms ∧
    (as_ref i).word_indexes later word
      = strLookup later.trees.words_tree word ∧
    (as_ref i).alternatives_to later word
      = strLookup later.trees.synonyms_tree word :=
  ⟨rfl, rfl, rfl, rfl⟩

end MeiliDb
